import Mathlib

/-!
Verification of the encrypted vault storage layer of the Password-Generator
repository (`storage.py`).

The repository's own code (`load_key`, `encrypt_and_save`, `load_and_decrypt`)
is embedded shallowly below, with the libraries it calls — `cryptography`'s
Fernet scheme, `json`, and the file system — modelled from the specification's
description of their behaviour, since their source is not part of this
repository.  Files are explicit state, randomness (`os.urandom`,
`Fernet.generate_key`'s entropy, the encryption IV) and the clock are explicit
parameters, and Python exceptions become `Except` values.
-/

namespace Vault

/-- Byte strings; each entry stands for one byte (or, in serialized
plaintext, one symbol). -/
abbrev Bytes := List Nat

/-! ## File system model

Modelled from the spec: a file is absent (`open` raises `FileNotFoundError`),
present with contents, or unreadable for OS reasons (`open`/`read` raises an
`OSError` such as `PermissionError`).  The process sees exactly two files,
`secret.key` and `passwords.enc`. -/

/-- State of one file on disk. -/
inductive FileContent (α : Type) where
  | absent : FileContent α
  | present : α → FileContent α
  | unreadable : FileContent α
deriving DecidableEq, Repr

/-- Errors raised by the file layer: `FileNotFoundError` vs. any other
`OSError` (permission denied, disk full, ...). -/
inductive FsError where
  | fileNotFound : FsError
  | ioFailure : FsError
deriving DecidableEq, Repr

/-- `open(path,'rb').read()`: the whole contents, or the exception. -/
def readFile {α : Type} : FileContent α → Except FsError α
  | .absent => .error .fileNotFound
  | .present d => .ok d
  | .unreadable => .error .ioFailure

/-! ## JSON model

Modelled from the spec: the canonical structured text form produced by
`json.dumps` / consumed by `json.loads`, restricted to the fragment of JSON
values the vault can meet (strings, arrays of strings, string-to-string
objects).  `dumps` is injective and `loads` inverts it; byte strings that are
not in the image of `dumps` fail to parse (`json.JSONDecodeError`). -/

/-- The JSON values relevant to the vault. -/
inductive Json where
  | jstr : String → Json
  | jarr : List String → Json
  | jobj : List (String × String) → Json
deriving DecidableEq, Repr

/-- Serialize one string: length-prefixed code points. -/
def dumpString (s : String) : Bytes :=
  s.data.length :: s.data.map Char.toNat

/-- Serialize a JSON value (model of `json.dumps(...).encode()`). -/
def dumps : Json → Bytes
  | .jstr s => 0 :: dumpString s
  | .jarr xs => 1 :: xs.length :: xs.flatMap dumpString
  | .jobj fields => 2 :: fields.length ::
      fields.flatMap (fun e => dumpString e.1 ++ dumpString e.2)

/-- Parse one length-prefixed string, returning it and the remaining input. -/
def parseString : Bytes → Option (String × Bytes)
  | [] => none
  | n :: rest =>
    if n ≤ rest.length then
      some (String.mk ((rest.take n).map Char.ofNat), rest.drop n)
    else none

/-- Parse `n` consecutive strings. -/
def parseStrings : Nat → Bytes → Option (List String × Bytes)
  | 0, l => some ([], l)
  | n + 1, l =>
    match parseString l with
    | none => none
    | some (s, rest) =>
      match parseStrings n rest with
      | none => none
      | some (ss, rest') => some (s :: ss, rest')

/-- Parse `n` consecutive string pairs. -/
def parsePairs : Nat → Bytes → Option (List (String × String) × Bytes)
  | 0, l => some ([], l)
  | n + 1, l =>
    match parseString l with
    | none => none
    | some (a, rest) =>
      match parseString rest with
      | none => none
      | some (b, rest') =>
        match parsePairs n rest' with
        | none => none
        | some (ps, rest'') => some ((a, b) :: ps, rest'')

/-- Deserialize a JSON value (model of `json.loads`); `none` is
`json.JSONDecodeError`. -/
def loads : Bytes → Option Json
  | 0 :: rest =>
    match parseString rest with
    | some (s, []) => some (.jstr s)
    | _ => none
  | 1 :: n :: rest =>
    match parseStrings n rest with
    | some (xs, []) => some (.jarr xs)
    | _ => none
  | 2 :: n :: rest =>
    match parsePairs n rest with
    | some (fields, []) => some (.jobj fields)
    | _ => none
  | _ => none

/-! ## Fernet model

Modelled from the spec: the `cryptography` library's Fernet authenticated
encryption (its source is not part of this repository).  A token carries a
version byte `0x80`, a creation timestamp, a random IV, the ciphertext, and
an HMAC over all of the preceding, keyed by the signing half of the key.
Decryption verifies the version and the HMAC before releasing any plaintext
and raises `InvalidToken` (the spec's `IntegrityError`) on any mismatch.
The MAC is modelled as ideal (collision-free), matching the spec's fail-closed
invariant, and the block cipher as a key-dependent bijection on symbols. -/

/-- The authenticated header of a Fernet token. -/
structure TokenHeader where
  version : Nat
  timestamp : Nat
  iv : Bytes
deriving DecidableEq, Repr

/-- An ideal MAC tag: determined by, and determining, the key and the
authenticated data.  A real HMAC compresses; collisions are assumed away. -/
structure MacTag where
  macKey : Bytes
  macHeader : TokenHeader
  macCiphertext : Bytes
deriving DecidableEq, Repr

/-- Compute the tag over a header and ciphertext under a key. -/
def mac (k : Bytes) (h : TokenHeader) (c : Bytes) : MacTag := ⟨k, h, c⟩

/-- An on-disk Fernet token (the spec's `EncryptedBlob`). -/
structure EncryptedBlob where
  header : TokenHeader
  ciphertext : Bytes
  tag : MacTag
deriving DecidableEq, Repr

/-- Key-derived additive pad standing for the AES-CBC keystream. -/
def keyPad (k : Bytes) : Nat := k.foldl (· + ·) 1

/-- Symbol-wise encryption under key `k` (a bijection on symbol lists). -/
def encryptBytes (k : Bytes) (p : Bytes) : Bytes := p.map (· + keyPad k)

/-- Symbol-wise decryption, the inverse of `encryptBytes`. -/
def decryptBytes (k : Bytes) (c : Bytes) : Bytes := c.map (· - keyPad k)

/-- Errors surfaced by `load_and_decrypt` and the codec layer:
`IntegrityError` is `cryptography.fernet.InvalidToken`, `DecodeError` is
`json.JSONDecodeError`, `IOFailure` a propagated `OSError`. -/
inductive VaultError where
  | ioFailure : VaultError
  | integrityError : VaultError
  | decodeError : VaultError
deriving DecidableEq, Repr

/-- `Fernet(key).encrypt(plain)` at time `ts` with fresh IV `iv`. -/
def fernetEncrypt (k : Bytes) (ts : Nat) (iv : Bytes) (plain : Bytes) :
    EncryptedBlob :=
  let h : TokenHeader := ⟨0x80, ts, iv⟩
  let c := encryptBytes k plain
  ⟨h, c, mac k h c⟩

/-- `Fernet(key).decrypt(blob)`: verify version and tag, then decrypt;
`InvalidToken` on any verification failure. -/
def fernetDecrypt (k : Bytes) (b : EncryptedBlob) : Except VaultError Bytes :=
  if b.header.version = 0x80 ∧ b.tag = mac k b.header b.ciphertext then
    .ok (decryptBytes k b.ciphertext)
  else
    .error .integrityError

/-- URL-safe base64 alphabet, as ASCII codes. -/
def b64Char (n : Nat) : Nat :=
  if n < 26 then 65 + n
  else if n < 52 then 97 + (n - 26)
  else if n < 62 then 48 + (n - 52)
  else if n = 62 then 45
  else 95

/-- Standard base64 encoding of a byte list ('=' is code 61). -/
def b64Encode : Bytes → Bytes
  | a :: b :: c :: rest =>
    let n := a * 65536 + b * 256 + c
    b64Char (n / 262144) :: b64Char (n / 4096 % 64) ::
      b64Char (n / 64 % 64) :: b64Char (n % 64) :: b64Encode rest
  | [a, b] =>
    let n := a * 65536 + b * 256
    [b64Char (n / 262144), b64Char (n / 4096 % 64), b64Char (n / 64 % 64), 61]
  | [a] =>
    let n := a * 65536
    [b64Char (n / 262144), b64Char (n / 4096 % 64), 61, 61]
  | [] => []

/-- `Fernet.generate_key()`: the URL-safe base64 encoding of 32 bytes drawn
from `os.urandom`; `rnd` is that entropy. -/
def generateKey (rnd : Bytes) : Bytes := b64Encode rnd

/-! ## The storage module (`src/storage.py`)

The two files `secret.key` and `passwords.enc` are the state threaded through
every operation.  Each function returns its Python result (an `Except`, since
the Python may raise) together with the file state after the call — also on
the error paths, where side effects that happened before the exception
remain visible. -/

/-- The two files `storage.py` touches: `KEY_FILE` holds raw bytes,
`PASSWORD_FILE` holds a Fernet token. -/
structure FileSys where
  keyFile : FileContent Bytes
  blobFile : FileContent EncryptedBlob
deriving DecidableEq, Repr

/-- `load_key()` from `storage.py`: return the key file's contents verbatim;
on `FileNotFoundError`, generate a fresh key from entropy `rnd`, write it to
the key file and return it.  Other `OSError`s propagate. -/
def load_key (rnd : Bytes) (fs : FileSys) : Except FsError Bytes × FileSys :=
  match readFile fs.keyFile with
  | .ok k => (.ok k, fs)
  | .error .fileNotFound =>
    let key := generateKey rnd
    (.ok key, { fs with keyFile := .present key })
  | .error .ioFailure => (.error .ioFailure, fs)

/-- `encrypt_and_save(data)` from `storage.py`: obtain the key via
`load_key`, serialize `data` to JSON, encrypt with Fernet (at time `ts`,
IV `iv`), and overwrite the blob file. -/
def encrypt_and_save (rnd : Bytes) (ts : Nat) (iv : Bytes)
    (data : List (String × String)) (fs : FileSys) :
    Except FsError Unit × FileSys :=
  match load_key rnd fs with
  | (.error e, fs') => (.error e, fs')
  | (.ok key, fs') =>
    (.ok (), { fs' with
      blobFile := .present (fernetEncrypt key ts iv (dumps (.jobj data))) })

/-- `load_and_decrypt()` from `storage.py`: obtain the key via `load_key`,
read the blob file, decrypt, and parse the JSON.  Only `FileNotFoundError`
on the blob file is caught (returning `{}`); `InvalidToken`,
`JSONDecodeError` and other `OSError`s propagate.  The parsed JSON value is
returned as-is, whatever its shape. -/
def load_and_decrypt (rnd : Bytes) (fs : FileSys) :
    Except VaultError Json × FileSys :=
  match load_key rnd fs with
  | (.error _, fs') => (.error .ioFailure, fs')
  | (.ok key, fs') =>
    match readFile fs'.blobFile with
    | .error .fileNotFound => (.ok (.jobj []), fs')
    | .error .ioFailure => (.error .ioFailure, fs')
    | .ok blob =>
      match fernetDecrypt key blob with
      | .error e => (.error e, fs')
      | .ok plain =>
        match loads plain with
        | none => (.error .decodeError, fs')
        | some v => (.ok v, fs')

/-! ## The codec layer (the spec's Vault Codec)

`storage.py` has no separate codec; `encode`/`decode` name the composition
of serialization and Fernet exactly as `encrypt_and_save`/`load_and_decrypt`
perform it. -/

/-- The spec's `encode(record, key)`. -/
def encode (m : List (String × String)) (k : Bytes) (ts : Nat) (iv : Bytes) :
    EncryptedBlob :=
  fernetEncrypt k ts iv (dumps (.jobj m))

/-- The spec's `decode(blob, key)`. -/
def decode (b : EncryptedBlob) (k : Bytes) : Except VaultError Json :=
  match fernetDecrypt k b with
  | .error e => .error e
  | .ok plain =>
    match loads plain with
    | none => .error .decodeError
    | some v => .ok v

/-! ## Single-bit tampering -/

/-- Flip bit `j` of the `i`-th entry of a byte list. -/
def flipBitAt (l : Bytes) (i j : Nat) : Bytes :=
  l.set i (l.getD i 0 ^^^ 2 ^ j)

/-- `b'` is `b` with exactly one bit flipped, region by region of the binary
token: the version byte, a timestamp byte, an IV byte, a ciphertext byte, or
the stored authentication tag.  In the ideal-MAC model a bit flip inside the
stored tag is any change of the tag value. -/
inductive OneBitFlip (b : EncryptedBlob) : EncryptedBlob → Prop where
  | version (j : Nat) :
      OneBitFlip b ⟨⟨b.header.version ^^^ 2 ^ j, b.header.timestamp,
        b.header.iv⟩, b.ciphertext, b.tag⟩
  | timestamp (j : Nat) :
      OneBitFlip b ⟨⟨b.header.version, b.header.timestamp ^^^ 2 ^ j,
        b.header.iv⟩, b.ciphertext, b.tag⟩
  | iv (i j : Nat) (hi : i < b.header.iv.length) :
      OneBitFlip b ⟨⟨b.header.version, b.header.timestamp,
        flipBitAt b.header.iv i j⟩, b.ciphertext, b.tag⟩
  | ciphertext (i j : Nat) (hi : i < b.ciphertext.length) :
      OneBitFlip b ⟨b.header, flipBitAt b.ciphertext i j, b.tag⟩
  | tag (t : MacTag) (hne : t ≠ b.tag) :
      OneBitFlip b ⟨b.header, b.ciphertext, t⟩

instance {ε α : Type} [DecidableEq ε] [DecidableEq α] :
    DecidableEq (Except ε α) := fun a b =>
  match a, b with
  | .error e, .error f =>
    if h : e = f then .isTrue (by rw [h])
    else .isFalse (by intro hh; cases hh; exact h rfl)
  | .ok x, .ok y =>
    if h : x = y then .isTrue (by rw [h])
    else .isFalse (by intro hh; cases hh; exact h rfl)
  | .error _, .ok _ => .isFalse (by intro hh; cases hh)
  | .ok _, .error _ => .isFalse (by intro hh; cases hh)

/-! ## Concrete fixtures used by witnesses and counterexamples -/

/-- A key for concrete runs. -/
def kA : Bytes := [1, 2]

/-- A second, different key. -/
def kB : Bytes := [3]

/-- A sample vault mapping, with an ASCII and a Unicode entry. -/
def m0 : List (String × String) := [("email", "Tr0ub4dor&3"), ("señal", "übergrün")]

/-- Entropy for one `os.urandom(32)` draw. -/
def rnd0 : Bytes := List.replicate 32 0

/-- A pristine disk: neither file exists. -/
def fs0 : FileSys := ⟨.absent, .absent⟩

/-- The disk after `load_key` has bootstrapped the key on `fs0`. -/
def fsK : FileSys := ⟨.present (generateKey rnd0), .absent⟩

/-- The disk after `encrypt_and_save` of `m0` on a pristine disk. -/
def fsSaved : FileSys := (encrypt_and_save rnd0 7 [9] m0 fs0).2

/-- A blob whose authenticated plaintext is a JSON array, not an object. -/
def blobArr : EncryptedBlob := fernetEncrypt kA 7 [9] (dumps (.jarr ["x"]))

/-- A disk carrying `blobArr` under the matching key. -/
def fsArr : FileSys := ⟨.present kA, .present blobArr⟩

/-- A blob whose authenticated plaintext `[5]` is not valid JSON. -/
def blobBad : EncryptedBlob :=
  ⟨⟨0x80, 0, []⟩, encryptBytes kA [5], mac kA ⟨0x80, 0, []⟩ (encryptBytes kA [5])⟩

/-- A disk carrying `blobBad` under the matching key. -/
def fsBad : FileSys := ⟨.present kA, .present blobBad⟩

/-! ## Helper lemmas -/

theorem parseString_dumpString (s : String) (rest : Bytes) :
    parseString (dumpString s ++ rest) = some (s, rest) := by
  have hlen : (s.data.map Char.toNat).length = s.data.length :=
    List.length_map _ _
  have htake : (s.data.map Char.toNat ++ rest).take s.data.length =
      s.data.map Char.toNat := by
    rw [← hlen, List.take_left]
  have hdrop : (s.data.map Char.toNat ++ rest).drop s.data.length = rest := by
    rw [← hlen, List.drop_left]
  have hmap : (s.data.map Char.toNat).map Char.ofNat = s.data := by
    rw [List.map_map]
    have : s.data.map (Char.ofNat ∘ Char.toNat) = s.data.map id :=
      List.map_congr_left fun c _ => Char.ofNat_toNat c
    rw [this, List.map_id]
  simp only [dumpString, List.cons_append, parseString]
  rw [if_pos (by rw [List.length_append, hlen]; omega), htake, hdrop, hmap]

theorem parseStrings_flatMap (xs : List String) (rest : Bytes) :
    parseStrings xs.length (xs.flatMap dumpString ++ rest) = some (xs, rest) := by
  induction xs generalizing rest with
  | nil => simp [parseStrings]
  | cons s ss ih =>
    simp only [List.length_cons, List.flatMap_cons, List.append_assoc,
      parseStrings, parseString_dumpString, ih]

theorem parsePairs_flatMap (fields : List (String × String)) (rest : Bytes) :
    parsePairs fields.length
      (fields.flatMap (fun e => dumpString e.1 ++ dumpString e.2) ++ rest) =
      some (fields, rest) := by
  induction fields generalizing rest with
  | nil => simp [parsePairs]
  | cons e es ih =>
    simp only [List.length_cons, List.flatMap_cons, List.append_assoc,
      parsePairs, parseString_dumpString, ih]

theorem loads_dumps (v : Json) : loads (dumps v) = some v := by
  cases v with
  | jstr s =>
    have h := parseString_dumpString s []
    rw [List.append_nil] at h
    simp [dumps, loads, h]
  | jarr xs =>
    have h := parseStrings_flatMap xs []
    rw [List.append_nil] at h
    simp [dumps, loads, h]
  | jobj fields =>
    have h := parsePairs_flatMap fields []
    rw [List.append_nil] at h
    simp [dumps, loads, h]

theorem decryptBytes_encryptBytes (k p : Bytes) :
    decryptBytes k (encryptBytes k p) = p := by
  simp [decryptBytes, encryptBytes, List.map_map, Function.comp_def]

theorem fernetDecrypt_fernetEncrypt (k : Bytes) (ts : Nat) (iv plain : Bytes) :
    fernetDecrypt k (fernetEncrypt k ts iv plain) = .ok plain := by
  simp [fernetDecrypt, fernetEncrypt, mac, decryptBytes_encryptBytes]

theorem load_key_blobFile (rnd : Bytes) (fs : FileSys) :
    (load_key rnd fs).2.blobFile = fs.blobFile := by
  cases h : fs.keyFile <;> simp [load_key, readFile, h]

theorem load_key_keyFile (rnd : Bytes) (fs fs' : FileSys) (k : Bytes)
    (h : load_key rnd fs = (.ok k, fs')) : fs'.keyFile = .present k := by
  cases hk : fs.keyFile <;> simp [load_key, readFile, hk] at h
  · obtain ⟨h1, h2⟩ := h
    subst h2
    simp [h1]
  · obtain ⟨h1, h2⟩ := h
    subst h2
    simp [hk, h1]

theorem load_key_present (rnd : Bytes) (fs : FileSys) (k : Bytes)
    (h : fs.keyFile = .present k) : load_key rnd fs = (.ok k, fs) := by
  simp [load_key, readFile, h]

theorem decode_of_fernetDecrypt_error (k : Bytes) (b : EncryptedBlob)
    (e : VaultError) (h : fernetDecrypt k b = .error e) :
    decode b k = .error e := by
  simp [decode, h]

set_option linter.unnecessarySeqFocus false in
theorem b64Encode_length (l : Bytes) :
    (b64Encode l).length = (l.length + 2) / 3 * 4 := by
  induction l using b64Encode.induct <;> simp [b64Encode, *] <;> omega

theorem generateKey_length (rnd : Bytes) (h : rnd.length = 32) :
    (generateKey rnd).length = 44 := by
  rw [generateKey, b64Encode_length, h]

theorem xor_two_pow_ne (x j : Nat) : x ^^^ 2 ^ j ≠ x := by
  intro h
  have h2 := congrArg (fun y => x ^^^ y) h
  simp only [← Nat.xor_assoc, Nat.xor_self, Nat.zero_xor] at h2
  exact Nat.ne_of_gt (Nat.two_pow_pos j) h2

theorem flipBitAt_ne (l : Bytes) (i j : Nat) (hi : i < l.length) :
    flipBitAt l i j ≠ l := by
  intro h
  simp only [flipBitAt] at h
  have hget := congrArg (fun t : Bytes => t.getD i 0) h
  simp [List.getD, hi] at hget
  exact absurd hget (xor_two_pow_ne _ j)

/-! ## Claim theorems -/

/-- C1: if the blob file exists but its contents fail authenticated
decryption under the stored key, `load_and_decrypt` propagates
`IntegrityError` to the caller and in particular never returns an empty
mapping. -/
theorem load_propagates_integrity_error (rnd key : Bytes) (fs : FileSys)
    (b : EncryptedBlob) (hk : fs.keyFile = .present key)
    (hb : fs.blobFile = .present b)
    (hd : fernetDecrypt key b = .error .integrityError) :
    load_and_decrypt rnd fs = (.error .integrityError, fs) := by
  unfold load_and_decrypt
  rw [load_key_present rnd fs key hk]
  simp [readFile, hb, hd]

/-- Witness for C1: a vault under key `kB` read with stored key `kA`. -/
theorem load_propagates_integrity_error_witness :
    load_and_decrypt rnd0 ⟨.present kA, .present (encode m0 kB 7 [9])⟩ =
      (.error .integrityError, ⟨.present kA, .present (encode m0 kB 7 [9])⟩) :=
  load_propagates_integrity_error rnd0 kA _ (encode m0 kB 7 [9]) rfl rfl
    (by decide)

/-- C2: decoding under the same key the blob encoded from any mapping
yields that mapping back, and `load_and_decrypt` after a successful
`encrypt_and_save` of any mapping (no intervening writes) returns exactly
that mapping. -/
theorem roundtrip (m : List (String × String)) (k rnd rnd' iv : Bytes)
    (ts : Nat) (fs fs' : FileSys)
    (hsave : encrypt_and_save rnd ts iv m fs = (.ok (), fs')) :
    decode (encode m k ts iv) k = .ok (.jobj m) ∧
    load_and_decrypt rnd' fs' = (.ok (.jobj m), fs') := by
  constructor
  · simp [decode, encode, fernetDecrypt_fernetEncrypt, loads_dumps]
  · unfold encrypt_and_save at hsave
    rcases hlk : load_key rnd fs with ⟨r, fs1⟩
    rw [hlk] at hsave
    cases r with
    | error e => simp at hsave
    | ok key =>
      simp only [Prod.mk.injEq] at hsave
      obtain ⟨-, hfs⟩ := hsave
      have hkey : fs'.keyFile = .present key := by
        rw [← hfs]
        exact load_key_keyFile rnd fs fs1 key hlk
      have hblob : fs'.blobFile =
          .present (fernetEncrypt key ts iv (dumps (.jobj m))) := by
        rw [← hfs]
      unfold load_and_decrypt
      rw [load_key_present rnd' fs' key hkey]
      simp [readFile, hblob, fernetDecrypt_fernetEncrypt, loads_dumps]

/-- Witness for C2: save `m0` on a pristine disk, then load it back. -/
theorem roundtrip_witness :
    decode (encode m0 kA 7 [9]) kA = .ok (.jobj m0) ∧
    load_and_decrypt rnd0 fsSaved = (.ok (.jobj m0), fsSaved) :=
  roundtrip m0 kA rnd0 rnd0 [9] 7 fs0 fsSaved rfl

/-- C3: flipping any single bit of a blob produced by `encode` makes
`decode` under the encoding key fail with `IntegrityError`; altered
plaintext is never returned. -/
theorem tamper_detection (m : List (String × String)) (k iv : Bytes)
    (ts : Nat) (b' : EncryptedBlob)
    (h : OneBitFlip (encode m k ts iv) b') :
    decode b' k = .error .integrityError := by
  apply decode_of_fernetDecrypt_error
  cases h with
  | version j =>
    rw [fernetDecrypt, if_neg]
    rintro ⟨h1, -⟩
    simp only [encode, fernetEncrypt] at h1
    exact xor_two_pow_ne 0x80 j h1
  | timestamp j =>
    rw [fernetDecrypt, if_neg]
    rintro ⟨-, h2⟩
    simp [encode, fernetEncrypt, mac, MacTag.mk.injEq,
      TokenHeader.mk.injEq] at h2
    exact absurd h2.symm (xor_two_pow_ne ts j)
  | iv i j hi =>
    rw [fernetDecrypt, if_neg]
    rintro ⟨-, h2⟩
    simp [encode, fernetEncrypt, mac, MacTag.mk.injEq,
      TokenHeader.mk.injEq] at h2
    have hi' : i < iv.length := by simpa [encode, fernetEncrypt] using hi
    exact absurd h2.symm (flipBitAt_ne iv i j hi')
  | ciphertext i j hi =>
    rw [fernetDecrypt, if_neg]
    rintro ⟨-, h2⟩
    simp [encode, fernetEncrypt, mac, MacTag.mk.injEq] at h2
    have hi' : i < (encryptBytes k (dumps (.jobj m))).length := by
      simpa [encode, fernetEncrypt] using hi
    exact absurd h2.symm (flipBitAt_ne _ i j hi')
  | tag t hne =>
    rw [fernetDecrypt, if_neg]
    rintro ⟨-, h2⟩
    exact hne (by simpa [encode, fernetEncrypt, mac] using h2)

/-- Witness for C3: flip bit 0 of ciphertext byte 0 of an encoding of
`m0`. -/
theorem tamper_detection_witness :
    OneBitFlip (encode m0 kA 7 [9])
      ⟨(encode m0 kA 7 [9]).header,
        flipBitAt (encode m0 kA 7 [9]).ciphertext 0 0,
        (encode m0 kA 7 [9]).tag⟩ ∧
    decode
      ⟨(encode m0 kA 7 [9]).header,
        flipBitAt (encode m0 kA 7 [9]).ciphertext 0 0,
        (encode m0 kA 7 [9]).tag⟩ kA = .error .integrityError :=
  ⟨.ciphertext 0 0 (by decide),
    tamper_detection m0 kA [9] 7 _ (.ciphertext 0 0 (by decide))⟩

/-- C4: decoding a blob encoded under `k1` with a different key `k2`
always fails with `IntegrityError`. -/
theorem wrong_key_rejected (m : List (String × String)) (k1 k2 iv : Bytes)
    (ts : Nat) (hne : k2 ≠ k1) :
    decode (encode m k1 ts iv) k2 = .error .integrityError := by
  apply decode_of_fernetDecrypt_error
  rw [fernetDecrypt, if_neg]
  rintro ⟨-, h2⟩
  simp [encode, fernetEncrypt, mac, MacTag.mk.injEq] at h2
  exact hne h2.symm

/-- Witness for C4: a blob under `kA` decoded with `kB`. -/
theorem wrong_key_rejected_witness :
    decode (encode m0 kA 7 [9]) kB = .error .integrityError :=
  wrong_key_rejected m0 kA kB [9] 7 (by decide)

/-- C5: with the key available, an absent blob file makes
`load_and_decrypt` return the empty mapping without raising, while any
other blob-file failure (an unreadable file) is reported as an error, not
as the empty default. -/
theorem first_run_bootstrap (rnd key : Bytes) (fs fs1 : FileSys)
    (hk : load_key rnd fs = (.ok key, fs1)) :
    (fs.blobFile = .absent → load_and_decrypt rnd fs = (.ok (.jobj []), fs1)) ∧
    (fs.blobFile = .unreadable →
      load_and_decrypt rnd fs = (.error .ioFailure, fs1)) := by
  have hblob : fs1.blobFile = fs.blobFile := by
    have h2 := load_key_blobFile rnd fs
    rw [hk] at h2
    exact h2
  constructor <;> intro hb <;> unfold load_and_decrypt <;> rw [hk] <;>
    simp [readFile, hblob, hb]

/-- Witness for C5: a pristine disk yields the empty vault. -/
theorem first_run_bootstrap_witness :
    load_and_decrypt rnd0 fs0 = (.ok (.jobj []), fsK) :=
  (first_run_bootstrap rnd0 (generateKey rnd0) fs0 fsK rfl).1 rfl

/-- C6: a second `load_key` call on the state left by a successful first
call returns the very same key, and an existing key file's contents are
returned verbatim. -/
theorem key_persistence (rnd rnd' key : Bytes) (fs fs1 : FileSys)
    (h : load_key rnd fs = (.ok key, fs1)) :
    load_key rnd' fs1 = (.ok key, fs1) ∧
    ∀ d : Bytes, fs.keyFile = .present d → load_key rnd fs = (.ok d, fs) :=
  ⟨load_key_present rnd' fs1 key (load_key_keyFile rnd fs fs1 key h),
    fun d hd => load_key_present rnd fs d hd⟩

/-- Witness for C6: the key bootstrapped on a pristine disk is read back
unchanged by the second call. -/
theorem key_persistence_witness :
    load_key rnd0 fsK = (.ok (generateKey rnd0), fsK) :=
  (key_persistence rnd0 rnd0 (generateKey rnd0) fs0 fsK rfl).1

/-- C7 (amended): `load_key` propagates a non-file-not-found I/O failure on
the key file, and on the generation path (key file absent) the key it
returns is non-empty; but an existing key file's contents are returned
verbatim even when empty, so C7 as stated fails (see the
counterexample). -/
theorem key_failure_propagation (rnd : Bytes) (fs : FileSys) :
    (fs.keyFile = .unreadable → load_key rnd fs = (.error .ioFailure, fs)) ∧
    (fs.keyFile = .absent → rnd.length = 32 →
      (load_key rnd fs).1 = .ok (generateKey rnd) ∧ generateKey rnd ≠ []) := by
  constructor
  · intro h
    simp [load_key, readFile, h]
  · intro h h32
    refine ⟨by simp [load_key, readFile, h], fun hnil => ?_⟩
    have hlen := generateKey_length rnd h32
    rw [hnil] at hlen
    simp at hlen

/-- Counterexample for C7: an existing but empty key file makes `load_key`
return the empty byte string as the key. -/
theorem key_empty_returned_cex :
    (load_key rnd0 ⟨.present [], .absent⟩).1 = .ok ([] : Bytes) := rfl

/-- Witness for C7 (amended): I/O failure propagates; the generated key is
non-empty. -/
theorem key_failure_propagation_witness :
    load_key rnd0 ⟨.unreadable, .absent⟩ =
      (.error .ioFailure, ⟨.unreadable, .absent⟩) ∧
    ((load_key rnd0 fs0).1 = .ok (generateKey rnd0) ∧ generateKey rnd0 ≠ []) :=
  ⟨(key_failure_propagation rnd0 ⟨.unreadable, .absent⟩).1 rfl,
    (key_failure_propagation rnd0 fs0).2 rfl rfl⟩

/-- C8 (amended): plaintext that authenticates but fails JSON parsing makes
`load_and_decrypt` raise `DecodeError`, which is distinct from
`IntegrityError`; however plaintext that parses as JSON but is not a
mapping is returned as-is, so C8 as stated fails (see the
counterexample). -/
theorem malformed_plaintext_decode_error (rnd key plain : Bytes)
    (fs : FileSys) (b : EncryptedBlob) (hk : fs.keyFile = .present key)
    (hb : fs.blobFile = .present b) (hd : fernetDecrypt key b = .ok plain)
    (hp : loads plain = none) :
    load_and_decrypt rnd fs = (.error .decodeError, fs) ∧
    VaultError.decodeError ≠ VaultError.integrityError := by
  refine ⟨?_, by decide⟩
  unfold load_and_decrypt
  rw [load_key_present rnd fs key hk]
  simp [readFile, hb, hd, hp]

/-- Counterexample for C8: an authenticated blob whose plaintext is a JSON
array is returned as a non-mapping value, with no `DecodeError`. -/
theorem nonmapping_returned_cex :
    (load_and_decrypt rnd0 fsArr).1 = .ok (.jarr ["x"]) := by decide

/-- Witness for C8 (amended): an authenticated blob with unparseable
plaintext `[5]`. -/
theorem malformed_plaintext_decode_error_witness :
    load_and_decrypt rnd0 fsBad = (.error .decodeError, fsBad) ∧
    VaultError.decodeError ≠ VaultError.integrityError :=
  malformed_plaintext_decode_error rnd0 kA [5] fsBad blobBad rfl rfl
    (by decide) rfl

/-- C9 (amended): on first run `load_key` writes exactly the generated key
to the key file, with no header or versioning, and that key is the 44-byte
URL-safe base64 encoding of 32 random bytes — not 32 bytes long as stated
(see the counterexample). -/
theorem first_run_key_format (rnd : Bytes) (fs : FileSys)
    (h32 : rnd.length = 32) (habs : fs.keyFile = .absent) :
    load_key rnd fs = (.ok (generateKey rnd),
      { fs with keyFile := .present (generateKey rnd) }) ∧
    (generateKey rnd).length = 44 :=
  ⟨by simp [load_key, readFile, habs], generateKey_length rnd h32⟩

/-- Counterexample for C9: the key written on first run is 44 bytes long,
not 32. -/
theorem key_not_32_bytes_cex :
    (load_key rnd0 fs0).2.keyFile = .present (generateKey rnd0) ∧
    (generateKey rnd0).length = 44 ∧ (generateKey rnd0).length ≠ 32 :=
  ⟨rfl, by decide, by decide⟩

/-- Witness for C9 (amended): first run on a pristine disk. -/
theorem first_run_key_format_witness :
    load_key rnd0 fs0 = (.ok (generateKey rnd0),
      { fs0 with keyFile := .present (generateKey rnd0) }) ∧
    (generateKey rnd0).length = 44 :=
  first_run_key_format rnd0 fs0 rfl rfl

/-- C10: with the key file absent, both `load_and_decrypt` and
`encrypt_and_save` create it as a side effect, writing the freshly
generated key material. -/
theorem load_creates_key_file (rnd iv : Bytes) (ts : Nat)
    (m : List (String × String)) (fs : FileSys)
    (habs : fs.keyFile = .absent) :
    (load_and_decrypt rnd fs).2.keyFile = .present (generateKey rnd) ∧
    (encrypt_and_save rnd ts iv m fs).2.keyFile =
      .present (generateKey rnd) := by
  have hlk : load_key rnd fs = (.ok (generateKey rnd),
      { fs with keyFile := .present (generateKey rnd) }) := by
    simp [load_key, readFile, habs]
  constructor
  · unfold load_and_decrypt
    rw [hlk]
    rcases hb : readFile
        ({ fs with keyFile := .present (generateKey rnd) } : FileSys).blobFile
      with e | blob
    · cases e <;> simp [hb]
    · rcases hd : fernetDecrypt (generateKey rnd) blob with e | plain
      · simp [hb, hd]
      · rcases hp : loads plain with - | v <;> simp [hb, hd, hp]
  · unfold encrypt_and_save
    rw [hlk]

/-- Witness for C10: a pristine disk gains the key file under both
operations. -/
theorem load_creates_key_file_witness :
    (load_and_decrypt rnd0 fs0).2.keyFile = .present (generateKey rnd0) ∧
    (encrypt_and_save rnd0 7 [9] m0 fs0).2.keyFile =
      .present (generateKey rnd0) :=
  load_creates_key_file rnd0 [9] 7 m0 fs0 rfl

end Vault
